import Mathlib

/-!
Verification of the JACL configuration-language core (src/jacl/main.py):
a shallow embedding of the lexer (`lex`), the recursive-descent parser
(`parse` / `parseSection`), and the document model (`Variable`, `Section`,
`JACL`) with its duplicate-key merge algorithm and keyed lookup.

The input text is modelled as `List Char`, consumed from the front exactly
as the Python `TextView` does (`triml` pops characters, `checkl` peeks).
Python exceptions are modelled as an explicit error enumeration `JaclError`;
every function that can raise returns `Except JaclError _`.
-/

namespace Jacl

/-- Errors raised by the Python code.  Each constructor corresponds to one
distinct raise site (or uncaught exception class) in src/jacl/main.py. -/
inductive JaclError where
  /-- SyntaxError "Unterminated String Literal" in the quote branches of `lex`. -/
  | unterminatedStringLiteral
  /-- SyntaxError "No closing comment block found" in the block-comment branch of `lex`. -/
  | unterminatedCommentBlock
  /-- SyntaxError "... Expected newline" when a line comment reaches end of input. -/
  | expectedNewline
  /-- Uncaught OverflowError from `TextView.checkl` (fewer than 2 chars after a `#`). -/
  | overflowError
  /-- SyntaxError "Unknown token ..." raised by `parse` / `_parse_section`. -/
  | unexpectedToken
  /-- Uncaught IndexError from `tokens[0]` on an empty token list. -/
  | indexError
  /-- NameError "... Top-Level JACL Sections may not occur twice" from `JACL.add`. -/
  | duplicateTopLevelSection
deriving DecidableEq, Repr

/-- A Python runtime value as stored in `Token.value` / `Variable.value`:
a string, an int, a float, a bool, `None`, or a list of values (lists arise
from the duplicate-variable merge in `Section.add` and may nest).
A float is represented by the lexeme it was coerced from, since no property
under verification computes with a float's numeric value. -/
inductive JVal where
  | str (s : String)
  | int (n : Int)
  | float (lit : String)
  | bool (b : Bool)
  | null
  | list (xs : List JVal)

/-- A lexical token.  The Python `Token` pairs a `TokenType` with a `value`
set by `determine_value`; since the value is determined by the type tag
(`True`/`False`/`None` for the keywords, the coerced word for
INTEGER/FLOAT/WORD, `None` for the braces), we embed tokens as a tagged
inductive carrying exactly that payload. -/
inductive Token where
  | OPEN_CURLY
  | CLOSE_CURLY
  | WORD (s : String)
  | INTEGER (n : Int)
  | FLOAT (lit : String)
  | BOOL_TRUE
  | BOOL_FALSE
  | NONE
deriving DecidableEq, Repr

/-- The `value` attribute of a token after `Token.determine_value` ran:
`True`/`False` for the booleans, Python `None` for NONE (and for the brace
tokens, whose value is never set), and the coerced word otherwise. -/
def Token.value : Token → JVal
  | .OPEN_CURLY => .null
  | .CLOSE_CURLY => .null
  | .WORD s => .str s
  | .INTEGER n => .int n
  | .FLOAT lit => .float lit
  | .BOOL_TRUE => .bool true
  | .BOOL_FALSE => .bool false
  | .NONE => .null

/-- Python `TextView.isalnum`: a word character is any character whose code point o
satisfies 32 < o < 123. -/
def isalnum (c : Char) : Bool :=
  32 < c.toNat && c.toNat < 123

/-- The string-literal scanning loop of `lex`
(`while view.checkl() != delim: word += view.triml()`, then one more `triml`):
returns the accumulated content and the text after the closing delimiter, or
`none` when the view empties first (OverflowError, re-raised as
UnterminatedStringLiteral). -/
def scanStr (delim : Char) : List Char → Option (List Char × List Char)
  | [] => none
  | c :: cs =>
    if c = delim then some ([], cs)
    else (scanStr delim cs).map (fun r => (c :: r.1, r.2))

/-- The line-comment scanning loop of `lex`
(`while view.checkl() != newline: view.triml()`): stops *before* the newline
(which stays in the view), or returns `none` when the view empties first. -/
def scanLine : List Char → Option (List Char)
  | [] => none
  | c :: cs => if c = '\n' then some (c :: cs) else scanLine cs

/-- The block-comment scanning loop of `lex`
(`while view.checkl(3) != "###": view.triml()`, then `view.triml(3)`):
returns the text after the first occurrence of three consecutive `#`
characters, or `none` when fewer than 3 characters remain (OverflowError,
re-raised as UnterminatedCommentBlock). -/
def scanBlock : List Char → Option (List Char)
  | a :: b :: c :: rest =>
    if a = '#' ∧ b = '#' ∧ c = '#' then some rest
    else scanBlock (b :: c :: rest)
  | _ => none

/-- The word-accumulation loop of `lex`
(`while len(view) > 0 and isalnum(view.checkl()): word += view.triml()`). -/
def scanWord : List Char → (List Char × List Char)
  | [] => ([], [])
  | c :: cs =>
    if isalnum c then
      let r := scanWord cs
      (c :: r.1, r.2)
    else ([], c :: cs)

/-- Digit run of a Python integer literal after the first digit:
further digits, with single underscores allowed between digits
(`1_000` is valid, `1__0`, `1_` are not), accumulating the value. -/
def digitsCore (acc : Nat) : List Char → Option Nat
  | [] => some acc
  | '_' :: c :: rest =>
    if c.isDigit then digitsCore (acc * 10 + (c.toNat - 48)) rest else none
  | ['_'] => none
  | c :: rest =>
    if c.isDigit then digitsCore (acc * 10 + (c.toNat - 48)) rest else none

/-- Unsigned Python integer literal: at least one digit, underscores as
digit-group separators.  (Python `int(...)` also strips surrounding
whitespace, but a lexed word never contains whitespace: every word character
has code point above 32.) -/
def pyIntDigits : List Char → Option Nat
  | [] => none
  | c :: rest => if c.isDigit then digitsCore (c.toNat - 48) rest else none

/-- Python `int(word)` on a lexed word: optional sign, then digits. -/
def pyInt : List Char → Option Int
  | '+' :: rest => (pyIntDigits rest).map Int.ofNat
  | '-' :: rest => (pyIntDigits rest).map (fun n => -(n : Int))
  | l => (pyIntDigits l).map Int.ofNat

/-- Consume a digit run (with underscore separators) and return the rest,
or `none` if the run is absent or malformed. -/
def digitsRestCore : List Char → Option (List Char)
  | [] => some []
  | '_' :: c :: rest =>
    if c.isDigit then digitsRestCore rest else none
  | ['_'] => none
  | c :: rest =>
    if c.isDigit then digitsRestCore rest else some (c :: rest)

/-- A digit run must start with a digit. -/
def digitsRest : List Char → Option (List Char)
  | [] => none
  | c :: rest => if c.isDigit then digitsRestCore rest else none

/-- Optional exponent part of a Python float literal (or end of the word). -/
def expPart : List Char → Bool
  | [] => true
  | 'e' :: rest => expDigits rest
  | 'E' :: rest => expDigits rest
  | _ => false
where
  /-- Signed digit run that must consume the whole rest of the word. -/
  expDigits : List Char → Bool
    | '+' :: rest => digitsRest rest = some []
    | '-' :: rest => digitsRest rest = some []
    | l => digitsRest l = some []

/-- Fractional digits (optional) followed by an optional exponent. -/
def fracExp : List Char → Bool
  | [] => true
  | l@(c :: _) =>
    if c.isDigit then
      match digitsRest l with
      | some r => expPart r
      | none => false
    else expPart l

/-- Numeric (non-inf/nan) Python float literal without sign:
`digits [. [digits]] [exp]` or `. digits [exp]`. -/
def pyFloatNum : List Char → Bool
  | '.' :: rest =>
    match digitsRest rest with
    | some r => expPart r
    | none => false
  | l =>
    match digitsRest l with
    | some ('.' :: r2) => fracExp r2
    | some r => expPart r
    | none => false

/-- Case-insensitive `inf` / `infinity` / `nan` accepted by Python `float`. -/
def pyFloatStr (l : List Char) : Bool :=
  let low := l.map Char.toLower
  low = ("inf").toList || low = ("infinity").toList || low = ("nan").toList

/-- Python `float(word)` succeeds on the lexed word. -/
def pyFloat : List Char → Bool
  | '+' :: rest => pyFloatNum rest || pyFloatStr rest
  | '-' :: rest => pyFloatNum rest || pyFloatStr rest
  | l => pyFloatNum l || pyFloatStr l

/-- Word classification in `lex`: try `int(word)`, then `float(word)`
(`TokenType.get_token_type` returns INTEGER/FLOAT for coerced numbers before
consulting the keyword table), then the case-insensitive keyword table
`true` / `false` / `none`, falling back to WORD.  `Token.determine_value`
then stores the coerced number, the keyword's value, or the raw word. -/
def classifyWord (l : List Char) : Token :=
  match pyInt l with
  | some n => .INTEGER n
  | none =>
    if pyFloat l then .FLOAT (String.mk l)
    else
      let low := l.map Char.toLower
      if low = ("true").toList then .BOOL_TRUE
      else if low = ("false").toList then .BOOL_FALSE
      else if low = ("none").toList then .NONE
      else .WORD (String.mk l)

/-- One iteration of the dispatch loop in `lex`: pop the first character
(`view.triml()`) and dispatch on it, producing at most one token and the
remaining text, or an error. -/
def lexStep : List Char → Except JaclError (Option Token × List Char)
  | [] => .ok (none, [])
  | c :: cs =>
    if c = '"' then
      match scanStr '"' cs with
      | some (w, rest) => .ok (some (.WORD (String.mk w)), rest)
      | none => .error .unterminatedStringLiteral
    else if c = Char.ofNat 39 then
      match scanStr (Char.ofNat 39) cs with
      | some (w, rest) => .ok (some (.WORD (String.mk w)), rest)
      | none => .error .unterminatedStringLiteral
    else if c = '\x7b' then .ok (some .OPEN_CURLY, cs)
    else if c = '\x7d' then .ok (some .CLOSE_CURLY, cs)
    else if c = '#' then
      -- `view.checkl(2)` peeks two characters and raises OverflowError
      -- (uncaught here) when fewer remain.
      match cs with
      | a :: b :: rest2 =>
        if a = '#' ∧ b = '#' then
          match scanBlock rest2 with
          | some rest => .ok (none, rest)
          | none => .error .unterminatedCommentBlock
        else
          match scanLine cs with
          | some rest => .ok (none, rest)
          | none => .error .expectedNewline
      | _ => .error .overflowError
    else if isalnum c then
      let r := scanWord cs
      .ok (some (classifyWord (c :: r.1)), r.2)
    else .ok (none, cs)

theorem scanStr_length_lt (delim : Char) :
    ∀ (l : List Char) (w rest : List Char),
      scanStr delim l = some (w, rest) → rest.length < l.length := by
  intro l
  induction l with
  | nil => intro w rest h; simp [scanStr] at h
  | cons c cs ih =>
    intro w rest h
    simp only [scanStr] at h
    split at h
    · simp only [Option.some.injEq, Prod.mk.injEq] at h
      simp [← h.2]
    · cases hs : scanStr delim cs with
      | none => rw [hs] at h; simp at h
      | some p =>
        rw [hs] at h
        simp only [Option.map_some', Option.some.injEq, Prod.mk.injEq] at h
        have := ih p.1 p.2 (by rw [hs])
        rw [← h.2]
        exact Nat.lt_trans this (Nat.lt_succ_self _)

theorem scanLine_length_le :
    ∀ (l rest : List Char), scanLine l = some rest → rest.length ≤ l.length := by
  intro l
  induction l with
  | nil => intro rest h; simp [scanLine] at h
  | cons c cs ih =>
    intro rest h
    simp only [scanLine] at h
    split at h
    · simp only [Option.some.injEq] at h
      simp [← h]
    · have := ih rest h
      exact Nat.le_trans this (Nat.le_succ _)

theorem scanBlock_length_lt :
    ∀ (l rest : List Char), scanBlock l = some rest → rest.length < l.length := by
  intro l
  induction l with
  | nil => intro rest h; simp [scanBlock] at h
  | cons a l1 ih =>
    intro rest h
    match l1, h with
    | [], h => exact Option.noConfusion h
    | [b], h => exact Option.noConfusion h
    | b :: c :: rest2, h =>
      simp only [scanBlock] at h
      split at h
      · simp only [Option.some.injEq] at h
        simp [← h]
        omega
      · have := ih rest h
        exact Nat.lt_trans this (Nat.lt_succ_self _)

theorem scanWord_length_le :
    ∀ (l : List Char), (scanWord l).2.length ≤ l.length := by
  intro l
  induction l with
  | nil => simp [scanWord]
  | cons c cs ih =>
    simp only [scanWord]
    split
    · simpa using Nat.le_trans ih (Nat.le_succ _)
    · simp

/-- Any successful iteration of the lexer's dispatch loop on nonempty input
strictly shrinks the remaining text. -/
theorem lexStep_length_lt (c : Char) (cs : List Char) (t : Option Token)
    (rest : List Char) (h : lexStep (c :: cs) = .ok (t, rest)) :
    rest.length < (c :: cs).length := by
  simp only [lexStep] at h
  split at h
  · -- double-quote branch
    split at h
    · rename_i w r hs
      simp only [Except.ok.injEq, Prod.mk.injEq] at h
      have := scanStr_length_lt '"' cs w r hs
      rw [← h.2]; exact Nat.lt_trans this (Nat.lt_succ_self _)
    · exact absurd h (by simp)
  · split at h
    · -- single-quote branch
      split at h
      · rename_i w r hs
        simp only [Except.ok.injEq, Prod.mk.injEq] at h
        have := scanStr_length_lt (Char.ofNat 39) cs w r hs
        rw [← h.2]; exact Nat.lt_trans this (Nat.lt_succ_self _)
      · exact absurd h (by simp)
    · split at h
      · -- open curly
        simp only [Except.ok.injEq, Prod.mk.injEq] at h
        rw [← h.2]; exact Nat.lt_succ_self _
      · split at h
        · -- close curly
          simp only [Except.ok.injEq, Prod.mk.injEq] at h
          rw [← h.2]; exact Nat.lt_succ_self _
        · split at h
          · -- comment branch
            match cs, h with
            | a :: b :: rest2, h =>
              simp only at h
              split at h
              · -- block comment
                split at h
                · rename_i r hs
                  simp only [Except.ok.injEq, Prod.mk.injEq] at h
                  have := scanBlock_length_lt rest2 r hs
                  rw [← h.2]; simp only [List.length_cons]; omega
                · exact absurd h (by simp)
              · -- line comment
                split at h
                · rename_i r hs
                  simp only [Except.ok.injEq, Prod.mk.injEq] at h
                  have := scanLine_length_le (a :: b :: rest2) r hs
                  rw [← h.2]; simp only [List.length_cons] at this ⊢; omega
                · exact absurd h (by simp)
          · split at h
            · -- word branch
              simp only [Except.ok.injEq, Prod.mk.injEq] at h
              have := scanWord_length_le cs
              rw [← h.2]; simp only [List.length_cons]; omega
            · -- whitespace: discard one character
              simp only [Except.ok.injEq, Prod.mk.injEq] at h
              rw [← h.2]; exact Nat.lt_succ_self _

/-- The dispatch loop of `lex`: run `lexStep` until the view is empty,
collecting the emitted tokens in order. -/
def lex (cs : List Char) : Except JaclError (List Token) :=
  match cs with
  | [] => .ok []
  | c :: cs2 =>
    match h : lexStep (c :: cs2) with
    | .error e => .error e
    | .ok (t, rest) =>
      match lex rest with
      | .error e => .error e
      | .ok ts =>
        match t with
        | some tok => .ok (tok :: ts)
        | none => .ok ts
termination_by cs.length
decreasing_by exact lexStep_length_lt _ _ _ _ (by assumption)

/-- A named leaf of the document: `Variable(name, value)`. -/
structure Variable where
  name : String
  value : JVal

/-- A named, ordered container of variables and nested sections:
`Section(name, variables, subsections)`.  Recursive through `List`, so it is
declared as an inductive with projection functions. -/
inductive Section where
  | mk (name : String) (vars : List Variable) (subsections : List Section)

def Section.name : Section → String
  | .mk n _ _ => n

/-- The `variables` attribute (`variables` is a reserved word in Lean). -/
def Section.vars : Section → List Variable
  | .mk _ v _ => v

def Section.subsections : Section → List Section
  | .mk _ _ s => s

/-- Remove the first element with the given name from a list of variables,
returning it and the remainder (`matching_variables[0]` /
`self.variables.pop(matching_variable_idx)` in `Section.add`). -/
def popFirstVar : List Variable → String → Option (Variable × List Variable)
  | [], _ => none
  | w :: ws, n =>
    if w.name = n then some (w, ws)
    else (popFirstVar ws n).map (fun r => (r.1, w :: r.2))

/-- Remove the first section with the given name from a list of sections. -/
def popFirstSec : List Section → String → Option (Section × List Section)
  | [], _ => none
  | s :: ss, n =>
    if s.name = n then some (s, ss)
    else (popFirstSec ss n).map (fun r => (r.1, s :: r.2))

/-- The duplicate-variable merge of `Section.add`: the popped variable's
value is promoted to a list if it is not one already, the new value is
appended, and the variable is re-appended at the end of the list. -/
def promote (old new : JVal) : JVal :=
  match old with
  | .list xs => .list (xs ++ [new])
  | v => .list [v, new]

/-- Python `Section.add` on a `Variable` argument: merge into the existing variable
of the same name (popping it and re-appending it at the end), or append. -/
def Section.addVar (sec : Section) (v : Variable) : Section :=
  match popFirstVar sec.vars v.name with
  | some (w, rest) =>
    .mk sec.name (rest ++ [⟨w.name, promote w.value v.value⟩]) sec.subsections
  | none => .mk sec.name (sec.vars ++ [v]) sec.subsections

mutual
/-- Python `Section.add` on a `Section` argument: if a subsection with the same
name exists, pop it, add each of the new section's variables and subsections
into it via the same algorithm, and re-append it at the end; otherwise
append the new section. -/
def Section.addSec : Section → Section → Section
  | sec, .mk vname vvars vsubs =>
    match popFirstSec sec.subsections vname with
    | some (s, rest) =>
      .mk sec.name sec.vars
        (rest ++ [addSecList (List.foldl Section.addVar s vvars) vsubs])
    | none =>
      .mk sec.name sec.vars (sec.subsections ++ [.mk vname vvars vsubs])

/-- Fold `Section.addSec` over a list of subsections
(the `for sec in value.subsections: s.add(sec)` loop). -/
def addSecList : Section → List Section → Section
  | s, [] => s
  | s, x :: xs => addSecList (s.addSec x) xs
end

/-- Python `Section.__getitem__`: scan the subsections first, returning the section
itself on a name match; then the variables, returning the variable's value;
`none` models the KeyError "Unknown section value" (UnknownKey). -/
def Section.getItem (sec : Section) (key : String) : Option (Section ⊕ JVal) :=
  match lookupSec sec.subsections key with
  | some s => some (.inl s)
  | none =>
    match lookupVar sec.vars key with
    | some v => some (.inr v.value)
    | none => none
where
  /-- The `for s in self.subsections` loop: first section with the name. -/
  lookupSec : List Section → String → Option Section
    | [], _ => none
    | s :: ss, k => if k = s.name then some s else lookupSec ss k
  /-- The `for v in self.variables` loop: first variable with the name. -/
  lookupVar : List Variable → String → Option Variable
    | [], _ => none
    | v :: vs, k => if k = v.name then some v else lookupVar vs k

/-- The root document object `JACL`, an ordered list of top-level sections. -/
structure JACL where
  sections : List Section

/-- Python `JACL.add`: a top-level section whose name already exists raises
NameError (DuplicateTopLevelSection); otherwise the section is appended. -/
def JACL.add (j : JACL) (s : Section) : Except JaclError JACL :=
  if j.sections.any (fun x => x.name = s.name) then
    .error .duplicateTopLevelSection
  else .ok ⟨j.sections ++ [s]⟩

/-- Python `JACL.__getitem__`: first top-level section with the name, `none`
models the KeyError "Unknown Section Name". -/
def JACL.getItem (j : JACL) (key : String) : Option Section :=
  j.sections.find? (fun s => key = s.name)

/-- The tokens a WORD peeked at in `_parse_section` accepts as a variable
value: `next_token.type in (WORD, FLOAT, INTEGER, BOOL_FALSE, BOOL_TRUE)`. -/
def Token.isValueType : Token → Bool
  | .WORD _ => true
  | .FLOAT _ => true
  | .INTEGER _ => true
  | .BOOL_FALSE => true
  | .BOOL_TRUE => true
  | _ => false

/-- Python `_parse_section(tokens, section)`: the loop pops tokens until the list
is empty or a CLOSE_CURLY is popped.  A WORD peeks at the following token:
OPEN_CURLY starts a subsection (recursing on the *un-popped* token list, so
the OPEN_CURLY is consumed by the recursive call's fall-through case); a
value-type token forms a variable; anything else raises SyntaxError
(UnexpectedToken).  Peeking at an empty list raises IndexError.  A popped
token that is neither WORD nor CLOSE_CURLY is silently discarded by the
loop (no else branch exists for it).  The remaining token list is returned
alongside the section (the Python list is mutated in place); its length is
carried in the result so the recursion is well-founded. -/
def parseSecAux : (ts : List Token) → Section →
    Except JaclError (Section × { r : List Token // r.length ≤ ts.length })
  | [], sec => .ok (sec, ⟨[], Nat.le_refl 0⟩)
  | .CLOSE_CURLY :: ts, sec => .ok (sec, ⟨ts, Nat.le_succ _⟩)
  | .WORD name :: ts, sec =>
    match ts with
    | [] => .error .indexError
    | nt :: ts2 =>
      if nt = .OPEN_CURLY then
        match parseSecAux (nt :: ts2) (.mk name [] []) with
        | .error e => .error e
        | .ok (sub, ⟨rest, hr⟩) =>
          match parseSecAux rest (sec.addSec sub) with
          | .error e => .error e
          | .ok (s2, ⟨rest2, hr2⟩) =>
            .ok (s2, ⟨rest2, Nat.le_trans (Nat.le_trans hr2 hr) (Nat.le_succ _)⟩)
      else if nt.isValueType then
        match parseSecAux ts2 (sec.addVar ⟨name, nt.value⟩) with
        | .error e => .error e
        | .ok (s2, ⟨rest2, hr2⟩) =>
          .ok (s2, ⟨rest2, Nat.le_trans hr2 (Nat.le_trans (Nat.le_succ _) (Nat.le_succ _))⟩)
      else .error .unexpectedToken
  | _ :: ts, sec =>
    -- a token that is neither WORD nor CLOSE_CURLY is silently skipped
    match parseSecAux ts sec with
    | .error e => .error e
    | .ok (s2, ⟨rest, hr⟩) => .ok (s2, ⟨rest, Nat.le_trans hr (Nat.le_succ _)⟩)
termination_by ts => ts.length
decreasing_by
all_goals first
| (simp only [List.length_cons] at *; omega)
| (simp only [List.length_cons]; omega)

/-- The function `_parse_section` without the length certificate. -/
def parseSection (ts : List Token) (sec : Section) :
    Except JaclError (Section × List Token) :=
  (parseSecAux ts sec).map (fun r => (r.1, r.2.1))

/-- Python `parse(tokens)`: the top-level loop pops tokens while any remain.  A
non-WORD token raises SyntaxError (UnexpectedToken).  A WORD peeks at the
following token (IndexError when none remains); on OPEN_CURLY both are
consumed and the section is parsed and added to the document; on anything
else *nothing happens* — the WORD has been popped and the loop simply
continues, silently discarding it. -/
def parseAux : (ts : List Token) → JACL → Except JaclError JACL
  | [], j => .ok j
  | .WORD name :: ts, j =>
    match ts with
    | [] => .error .indexError
    | nt :: ts2 =>
      if nt = .OPEN_CURLY then
        match parseSecAux ts2 (.mk name [] []) with
        | .error e => .error e
        | .ok (sec, ⟨rest, hr⟩) =>
          match j.add sec with
          | .error e => .error e
          | .ok j2 => parseAux rest j2
      else parseAux (nt :: ts2) j
  | _ :: _, _ => .error .unexpectedToken
termination_by ts => ts.length
decreasing_by
all_goals simp only [List.length_cons]
all_goals omega

/-- Python `parse(tokens)` starting from an empty `JACL()` document. -/
def parse (ts : List Token) : Except JaclError JACL :=
  parseAux ts ⟨[]⟩

/-- Python `loads` minus the file read: lex the text, then parse the tokens. -/
def lexParse (cs : List Char) : Except JaclError JACL := do
  parse (← lex cs)

/-- Token-kind test used by the parser loops (`token.type == TokenType.WORD`). -/
def Token.isWord : Token → Bool
  | .WORD _ => true
  | _ => false

/-- Token list of a run of variable entries: `WORD name` followed by a
value token, repeated. -/
def pairsToks : List (String × Token) → List Token
  | [] => []
  | (n, t) :: ps => .WORD n :: t :: pairsToks ps

/-- Token list of a complete section: name, opening brace, variable
entries, closing brace. -/
def secToks (n : String) (ps : List (String × Token)) : List Token :=
  .WORD n :: .OPEN_CURLY :: (pairsToks ps ++ [.CLOSE_CURLY])

/-- The section obtained by adding the given variable entries in order. -/
def sectionFold (sec : Section) (ps : List (String × Token)) : Section :=
  List.foldl (fun s p => s.addVar ⟨p.1, p.2.value⟩) sec ps

/-- Does the character list contain three consecutive `#` characters? -/
def hasHHH : List Char → Bool
  | a :: b :: c :: t => (a = '#' && b = '#' && c = '#') || hasHHH (b :: c :: t)
  | _ => false

/-- A building block of a comments-and-whitespace-only input: a whitespace
character, a newline-terminated line comment with body `b`, or a closed
block comment with body `b`. -/
inductive CPiece where
  | ws (c : Char)
  | line (b : List Char)
  | block (b : List Char)

/-- The characters of a piece. -/
def CPiece.text : CPiece → List Char
  | .ws c => [c]
  | .line b => '#' :: b ++ [Char.ofNat 10]
  | .block b => '#' :: '#' :: '#' :: b ++ ['#', '#', '#']

/-- The side conditions under which the code accepts the piece: whitespace
must be an ASCII control character or space; a line comment body must be
nonempty (two characters must remain after the `#` for `checkl(2)`), contain
no newline, and not begin with `##` (which would start a block comment); a
block comment body must not contain `###` and must not end with `#` (which
would shift the closing marker). -/
def CPiece.ok : CPiece → Prop
  | .ws c => c.toNat ≤ 32
  | .line b => b ≠ [] ∧ Char.ofNat 10 ∉ b ∧ b.take 2 ≠ ['#', '#']
  | .block b => hasHHH b = false ∧ b.getLast? ≠ some '#'

instance : DecidablePred CPiece.ok := by
  intro p
  cases p <;> simp only [CPiece.ok] <;> infer_instance

/-- The concatenation of the pieces of an input. -/
def piecesText : List CPiece → List Char
  | [] => []
  | p :: ps => p.text ++ piecesText ps

theorem parseSection_nil (sec : Section) : parseSection [] sec = .ok (sec, []) := by
  simp [parseSection, parseSecAux, Except.map]

theorem parseSection_close (ts : List Token) (sec : Section) :
    parseSection (.CLOSE_CURLY :: ts) sec = .ok (sec, ts) := by
  simp [parseSection, parseSecAux, Except.map]

theorem parseSection_word_end (n : String) (sec : Section) :
    parseSection [.WORD n] sec = .error .indexError := by
  simp [parseSection, parseSecAux, Except.map]

theorem parseSection_skip (t : Token) (ts : List Token) (sec : Section)
    (hw : Token.isWord t = false) (hc : t ≠ .CLOSE_CURLY) :
    parseSection (t :: ts) sec = parseSection ts sec := by
  cases t <;> simp [Token.isWord] at hw hc ⊢ <;>
    (simp only [parseSection, parseSecAux]
     cases h : parseSecAux ts sec <;> simp [h, Except.map])

theorem parseSection_value (n : String) (nt : Token) (ts : List Token) (sec : Section)
    (hv : nt.isValueType = true) :
    parseSection (.WORD n :: nt :: ts) sec
      = parseSection ts (sec.addVar ⟨n, nt.value⟩) := by
  cases nt <;> simp [Token.isValueType] at hv <;>
    (simp only [parseSection, parseSecAux]
     cases h : parseSecAux ts (sec.addVar ⟨n, Token.value _⟩) <;>
       simp [h, Except.map, Token.isValueType])

theorem parseSection_word_unexpected (n : String) (nt : Token) (ts : List Token)
    (sec : Section) (ho : nt ≠ .OPEN_CURLY) (hv : nt.isValueType = false) :
    parseSection (.WORD n :: nt :: ts) sec = .error .unexpectedToken := by
  cases nt <;> simp [Token.isValueType] at hv ho ⊢ <;>
    simp [parseSection, parseSecAux, Except.map, Token.isValueType]

theorem parseSection_open (n : String) (ts : List Token) (sec : Section) :
    parseSection (.WORD n :: .OPEN_CURLY :: ts) sec
      = match parseSection (.OPEN_CURLY :: ts) (.mk n [] []) with
        | .error e => .error e
        | .ok (sub, rest) => parseSection rest (sec.addSec sub) := by
  simp only [parseSection, parseSecAux]
  cases h : parseSecAux ts (Section.mk n [] []) with
  | error e => simp [h, Except.map]
  | ok p =>
    obtain ⟨s2, rest, hr⟩ := p
    simp only [h, Except.map]
    cases h2 : parseSecAux rest (sec.addSec s2) <;> simp [h2, Except.map]

theorem parseAux_nil (j : JACL) : parseAux [] j = .ok j := by
  simp [parseAux]

theorem parseAux_nonword (t : Token) (ts : List Token) (j : JACL)
    (hw : Token.isWord t = false) :
    parseAux (t :: ts) j = .error .unexpectedToken := by
  cases t <;> simp [Token.isWord] at hw ⊢ <;> simp [parseAux]

theorem parseAux_word_end (n : String) (j : JACL) :
    parseAux [.WORD n] j = .error .indexError := by
  simp [parseAux]

theorem parseAux_word_skip (n : String) (nt : Token) (ts : List Token) (j : JACL)
    (ho : nt ≠ .OPEN_CURLY) :
    parseAux (.WORD n :: nt :: ts) j = parseAux (nt :: ts) j := by
  simp only [parseAux]
  rw [if_neg ho]

theorem parseAux_word_open (n : String) (ts : List Token) (j : JACL) :
    parseAux (.WORD n :: .OPEN_CURLY :: ts) j
      = match parseSection ts (.mk n [] []) with
        | .error e => .error e
        | .ok (sec, rest) =>
          match j.add sec with
          | .error e => .error e
          | .ok j2 => parseAux rest j2 := by
  simp only [parseAux, if_true]
  cases h : parseSecAux ts (Section.mk n [] []) with
  | error e => simp [h, parseSection, Except.map]
  | ok p =>
    obtain ⟨sec, rest, hr⟩ := p
    simp only [h, parseSection, Except.map]

theorem Section.addVar_name (sec : Section) (v : Variable) :
    (sec.addVar v).name = sec.name := by
  unfold Section.addVar
  cases popFirstVar sec.vars v.name <;> simp [Section.name] <;> rfl

theorem sectionFold_name (ps : List (String × Token)) :
    ∀ (sec : Section), (sectionFold sec ps).name = sec.name := by
  induction ps with
  | nil => intro sec; rfl
  | cons p ps ih =>
    intro sec
    simp only [sectionFold, List.foldl]
    rw [show List.foldl (fun s p => s.addVar ⟨p.1, p.2.value⟩)
          (sec.addVar ⟨p.1, p.2.value⟩) ps
        = sectionFold (sec.addVar ⟨p.1, p.2.value⟩) ps from rfl]
    rw [ih, Section.addVar_name]

theorem parseSection_pairs (ps : List (String × Token)) :
    ∀ (rest : List Token) (sec : Section),
      (∀ p ∈ ps, p.2.isValueType = true) →
      parseSection (pairsToks ps ++ rest) sec = parseSection rest (sectionFold sec ps) := by
  induction ps with
  | nil => intro rest sec _; rfl
  | cons p ps ih =>
    intro rest sec hv
    obtain ⟨n, t⟩ := p
    have ht : t.isValueType = true := hv (n, t) (by simp)
    simp only [pairsToks, List.cons_append]
    rw [parseSection_value n t _ sec ht]
    rw [ih rest _ (fun q hq => hv q (by simp [hq]))]
    rfl

theorem parseAux_secToks (n : String) (ps : List (String × Token))
    (rest : List Token) (j : JACL) (hv : ∀ p ∈ ps, p.2.isValueType = true) :
    parseAux (secToks n ps ++ rest) j
      = match j.add (sectionFold (.mk n [] []) ps) with
        | .error e => .error e
        | .ok j2 => parseAux rest j2 := by
  show parseAux (.WORD n :: .OPEN_CURLY :: ((pairsToks ps ++ [.CLOSE_CURLY]) ++ rest)) j = _
  rw [parseAux_word_open, List.append_assoc, parseSection_pairs ps _ _ hv]
  simp only [List.singleton_append]
  rw [parseSection_close]

/-- A section opened but never closed, whose body is a run of complete
variable entries, parses as if the brace had been closed. -/
theorem parse_unclosed (n : String) (ps : List (String × Token))
    (hv : ∀ p ∈ ps, p.2.isValueType = true) :
    parse (.WORD n :: .OPEN_CURLY :: pairsToks ps)
      = .ok ⟨[sectionFold (.mk n [] []) ps]⟩ := by
  unfold parse
  rw [parseAux_word_open, ← List.append_nil (pairsToks ps),
    parseSection_pairs ps _ _ hv, parseSection_nil]
  simp only [show (JACL.mk []).add (sectionFold (Section.mk n [] []) ps)
      = .ok ⟨[sectionFold (Section.mk n [] []) ps]⟩ from rfl]
  exact parseAux_nil _

theorem parse_dup_toplevel (n : String) (ps1 ps2 : List (String × Token))
    (h1 : ∀ p ∈ ps1, p.2.isValueType = true) (h2 : ∀ p ∈ ps2, p.2.isValueType = true) :
    parse (secToks n ps1 ++ secToks n ps2) = .error .duplicateTopLevelSection := by
  unfold parse
  rw [parseAux_secToks n ps1 _ _ h1]
  have hadd : (JACL.mk []).add (sectionFold (.mk n [] []) ps1)
      = .ok ⟨[sectionFold (.mk n [] []) ps1]⟩ := rfl
  rw [hadd]
  rw [show (match (Except.ok ⟨[sectionFold (.mk n [] []) ps1]⟩ :
      Except JaclError JACL) with
    | .error e => .error e
    | .ok j2 => parseAux (secToks n ps2) j2)
      = parseAux (secToks n ps2) ⟨[sectionFold (.mk n [] []) ps1]⟩ from rfl]
  rw [← List.append_nil (secToks n ps2), parseAux_secToks n ps2 _ _ h2]
  have hadd2 : (JACL.mk [sectionFold (.mk n [] []) ps1]).add
      (sectionFold (.mk n [] []) ps2) = .error .duplicateTopLevelSection := by
    unfold JACL.add
    rw [if_pos]
    simp only [List.any_cons, List.any_nil, Bool.or_false, decide_eq_true_eq]
    rw [sectionFold_name, sectionFold_name]
  rw [hadd2]

theorem popFirstVar_none (vs : List Variable) (n : String)
    (h : ∀ u ∈ vs, u.name ≠ n) : popFirstVar vs n = none := by
  induction vs with
  | nil => rfl
  | cons w ws ih =>
    simp only [popFirstVar]
    rw [if_neg (h w (by simp)), ih (fun u hu => h u (by simp [hu]))]
    rfl

theorem popFirstVar_found (pre post : List Variable) (w : Variable) (n : String)
    (hpre : ∀ u ∈ pre, u.name ≠ n) (hw : w.name = n) :
    popFirstVar (pre ++ w :: post) n = some (w, pre ++ post) := by
  induction pre with
  | nil => simp [popFirstVar, hw]
  | cons u us ih =>
    simp only [List.cons_append, popFirstVar, List.append_eq]
    rw [if_neg (hpre u (by simp)), ih (fun x hx => hpre x (by simp [hx]))]
    rfl

theorem popFirstSec_none (ss : List Section) (n : String)
    (h : ∀ u ∈ ss, u.name ≠ n) : popFirstSec ss n = none := by
  induction ss with
  | nil => rfl
  | cons w ws ih =>
    simp only [popFirstSec]
    rw [if_neg (h w (by simp)), ih (fun u hu => h u (by simp [hu]))]
    rfl

theorem popFirstSec_found (pre post : List Section) (w : Section) (n : String)
    (hpre : ∀ u ∈ pre, u.name ≠ n) (hw : w.name = n) :
    popFirstSec (pre ++ w :: post) n = some (w, pre ++ post) := by
  induction pre with
  | nil => simp [popFirstSec, hw]
  | cons u us ih =>
    simp only [List.cons_append, popFirstSec, List.append_eq]
    rw [if_neg (hpre u (by simp)), ih (fun x hx => hpre x (by simp [hx]))]
    rfl

theorem Section.addVar_fresh (nm : String) (vs : List Variable) (subs : List Section)
    (v : Variable) (h : ∀ u ∈ vs, u.name ≠ v.name) :
    (Section.mk nm vs subs).addVar v = .mk nm (vs ++ [v]) subs := by
  unfold Section.addVar
  rw [show (Section.mk nm vs subs).vars = vs from rfl, popFirstVar_none vs v.name h]
  rfl

theorem Section.addVar_merge (nm : String) (pre post : List Variable)
    (subs : List Section) (w v : Variable)
    (hpre : ∀ u ∈ pre, u.name ≠ v.name) (hw : w.name = v.name) :
    (Section.mk nm (pre ++ w :: post) subs).addVar v
      = .mk nm ((pre ++ post) ++ [⟨w.name, promote w.value v.value⟩]) subs := by
  unfold Section.addVar
  rw [show (Section.mk nm (pre ++ w :: post) subs).vars = pre ++ w :: post from rfl,
    popFirstVar_found pre post w v.name hpre hw]
  rfl

theorem Section.addSec_fresh (nm : String) (vs : List Variable) (subs : List Section)
    (v : Section) (h : ∀ u ∈ subs, u.name ≠ v.name) :
    (Section.mk nm vs subs).addSec v = .mk nm vs (subs ++ [v]) := by
  cases v with
  | mk vn vv vsub =>
    unfold Section.addSec
    rw [show (Section.mk nm vs subs).subsections = subs from rfl,
      popFirstSec_none subs vn (fun u hu => h u hu)]
    rfl

theorem Section.addSec_merge (nm : String) (vs : List Variable)
    (pre post : List Section) (w v : Section)
    (hpre : ∀ u ∈ pre, u.name ≠ v.name) (hw : w.name = v.name) :
    (Section.mk nm vs (pre ++ w :: post)).addSec v
      = .mk nm vs ((pre ++ post)
          ++ [addSecList (List.foldl Section.addVar w v.vars) v.subsections]) := by
  cases v with
  | mk vn vv vsub =>
    unfold Section.addSec
    rw [show (Section.mk nm vs (pre ++ w :: post)).subsections = pre ++ w :: post from rfl,
      popFirstSec_found pre post w vn hpre hw]
    rfl

theorem lookupSec_exists (ss : List Section) (key : String)
    (h : ∃ s ∈ ss, s.name = key) :
    ∃ s, Section.getItem.lookupSec ss key = some s ∧ s ∈ ss ∧ s.name = key := by
  induction ss with
  | nil => simp at h
  | cons s ss ih =>
    by_cases hs : key = s.name
    · exact ⟨s, by simp [Section.getItem.lookupSec, hs], by simp, hs.symm⟩
    · obtain ⟨t, ht, htn⟩ := h
      rcases List.mem_cons.mp ht with rfl | hmem
      · exact absurd htn.symm hs
      · obtain ⟨r, hr1, hr2, hr3⟩ := ih ⟨t, hmem, htn⟩
        exact ⟨r, by simp [Section.getItem.lookupSec, hs, hr1], by simp [hr2], hr3⟩

theorem lookupSec_none (ss : List Section) (key : String)
    (h : ∀ s ∈ ss, s.name ≠ key) : Section.getItem.lookupSec ss key = none := by
  induction ss with
  | nil => rfl
  | cons s ss ih =>
    simp only [Section.getItem.lookupSec]
    rw [if_neg (fun he => h s (by simp) he.symm), ih (fun u hu => h u (by simp [hu]))]

theorem lookupVar_exists (vs : List Variable) (key : String)
    (h : ∃ v ∈ vs, v.name = key) :
    ∃ v, Section.getItem.lookupVar vs key = some v ∧ v ∈ vs ∧ v.name = key := by
  induction vs with
  | nil => simp at h
  | cons v vs ih =>
    by_cases hv : key = v.name
    · exact ⟨v, by simp [Section.getItem.lookupVar, hv], by simp, hv.symm⟩
    · obtain ⟨t, ht, htn⟩ := h
      rcases List.mem_cons.mp ht with rfl | hmem
      · exact absurd htn.symm hv
      · obtain ⟨r, hr1, hr2, hr3⟩ := ih ⟨t, hmem, htn⟩
        exact ⟨r, by simp [Section.getItem.lookupVar, hv, hr1], by simp [hr2], hr3⟩

theorem lookupVar_none (vs : List Variable) (key : String)
    (h : ∀ v ∈ vs, v.name ≠ key) : Section.getItem.lookupVar vs key = none := by
  induction vs with
  | nil => rfl
  | cons v vs ih =>
    simp only [Section.getItem.lookupVar]
    rw [if_neg (fun he => h v (by simp) he.symm), ih (fun u hu => h u (by simp [hu]))]

theorem JACL.add_dup (j : JACL) (s : Section)
    (h : ∃ t ∈ j.sections, t.name = s.name) :
    j.add s = .error .duplicateTopLevelSection := by
  unfold JACL.add
  rw [if_pos]
  obtain ⟨t, ht, htn⟩ := h
  exact List.any_eq_true.mpr ⟨t, ht, by simp [htn]⟩

theorem lex_nil : lex [] = .ok [] := by
  simp [lex]

theorem lex_step_none (c : Char) (cs rest : List Char)
    (h : lexStep (c :: cs) = .ok (none, rest)) : lex (c :: cs) = lex rest := by
  simp only [lex]
  split
  · rename_i heq
    rw [heq] at h
    cases h
  · rename_i t r heq
    rw [heq] at h
    injection h with h1
    rw [Prod.mk.injEq] at h1
    obtain ⟨h2, h3⟩ := h1
    subst h2
    subst h3
    cases h4 : lex r <;> simp [h4]

theorem lexStep_ws (c : Char) (cs : List Char) (hc : c.toNat ≤ 32) :
    lexStep (c :: cs) = .ok (none, cs) := by
  have hq : ¬(c = '"') := fun h => by subst h; revert hc; decide
  have hq2 : ¬(c = Char.ofNat 39) := fun h => by subst h; revert hc; decide
  have ho : ¬(c = '\x7b') := fun h => by subst h; revert hc; decide
  have hb : ¬(c = '\x7d') := fun h => by subst h; revert hc; decide
  have hh : ¬(c = '#') := fun h => by subst h; revert hc; decide
  have ha : ¬(isalnum c = true) := by simp [isalnum]; omega
  simp only [lexStep]
  rw [if_neg hq, if_neg hq2, if_neg ho, if_neg hb, if_neg hh, if_neg ha]

theorem scanLine_through (b : List Char) (rest : List Char) (hnb : Char.ofNat 10 ∉ b) :
    scanLine (b ++ Char.ofNat 10 :: rest) = some (Char.ofNat 10 :: rest) := by
  induction b with
  | nil => simp [scanLine]
  | cons c cb ih =>
    simp only [List.cons_append, scanLine, List.append_eq]
    rw [if_neg (fun he => hnb (by simp [he])), ih (fun hm => hnb (by simp [hm]))]

theorem lexStep_lineComment (b rest : List Char) (hne : b ≠ [])
    (hnb : Char.ofNat 10 ∉ b) (h2 : b.take 2 ≠ ['#', '#']) :
    lexStep ('#' :: (b ++ Char.ofNat 10 :: rest))
      = .ok (none, Char.ofNat 10 :: rest) := by
  match b, hne, hnb, h2 with
  | b0 :: btail, _, hnb, h2 =>
    have hsl := scanLine_through (b0 :: btail) rest hnb
    match btail, hnb, h2, hsl with
    | [], hnb, h2, hsl =>
      simp only [List.cons_append, List.nil_append] at hsl ⊢
      simp only [lexStep]
      rw [if_neg (by decide), if_neg (by decide), if_neg (by decide),
        if_neg (by decide)]
      simp only [if_true]
      have hcond : ¬(b0 = '#' ∧ Char.ofNat 10 = '#') := by
        rintro ⟨-, hx⟩
        revert hx
        decide
      rw [if_neg hcond, hsl]
    | b1 :: bt2, hnb, h2, hsl =>
      simp only [List.cons_append] at hsl ⊢
      simp only [lexStep]
      rw [if_neg (by decide), if_neg (by decide), if_neg (by decide),
        if_neg (by decide)]
      simp only [if_true]
      have hcond : ¬(b0 = '#' ∧ b1 = '#') := by
        rintro ⟨hx, hy⟩
        subst hx
        subst hy
        exact h2 rfl
      rw [if_neg hcond, hsl]

theorem hasHHH_tail (c : Char) (bt : List Char) (h : hasHHH (c :: bt) = false) :
    hasHHH bt = false := by
  match bt, h with
  | [], _ => rfl
  | [d], _ => rfl
  | d :: e :: bt2, h =>
    simp only [hasHHH, Bool.or_eq_false_iff] at h
    exact h.2

theorem scanBlock_through (b rest : List Char) (hb : hasHHH b = false)
    (hlast : b.getLast? ≠ some '#') :
    scanBlock (b ++ '#' :: '#' :: '#' :: rest) = some rest := by
  induction b with
  | nil => simp [scanBlock]
  | cons c bt ih =>
    have hbt : hasHHH bt = false := hasHHH_tail c bt hb
    match bt, hbt, hlast with
    | [], _, hlast =>
      have hc : ¬(c = '#') := fun he => hlast (by simp [he])
      simp only [List.cons_append, List.nil_append, scanBlock]
      rw [if_neg (fun hx => hc hx.1)]
      simp [scanBlock]
    | [d], _, hlast =>
      have hd : ¬(d = '#') := fun he => hlast (by simp [he])
      simp only [List.cons_append, scanBlock]
      rw [if_neg (fun hx => hd hx.2.1)]
      rw [if_neg (fun hx => hd hx.1)]
      simp [scanBlock]
    | d :: e :: bt2, hbt, hlast =>
      have hcond : ¬(c = '#' ∧ d = '#' ∧ e = '#') := by
        rintro ⟨h1, h2, h3⟩
        subst h1; subst h2; subst h3
        simp [hasHHH] at hb
      have hlast2 : (d :: e :: bt2).getLast? ≠ some '#' := by
        rwa [List.getLast?_cons_cons] at hlast
      have := ih hbt hlast2
      simp only [List.cons_append, scanBlock] at this ⊢
      rw [if_neg hcond]
      exact this

theorem lexStep_blockComment (b rest : List Char) (hb : hasHHH b = false)
    (hlast : b.getLast? ≠ some '#') :
    lexStep ('#' :: '#' :: '#' :: (b ++ '#' :: '#' :: '#' :: rest))
      = .ok (none, rest) := by
  rw [show lexStep ('#' :: '#' :: '#' :: (b ++ '#' :: '#' :: '#' :: rest))
      = (match scanBlock (b ++ '#' :: '#' :: '#' :: rest) with
         | some r => Except.ok (none, r)
         | none => Except.error JaclError.unterminatedCommentBlock) from rfl,
    scanBlock_through b rest hb hlast]

theorem lex_piece (p : CPiece) (hp : p.ok) (rest : List Char) :
    lex (p.text ++ rest) = lex rest := by
  cases p with
  | ws c =>
    exact lex_step_none c rest rest (lexStep_ws c rest hp)
  | line b =>
    obtain ⟨h1, h2, h3⟩ := hp
    rw [show CPiece.text (.line b) ++ rest
        = '#' :: (b ++ Char.ofNat 10 :: rest) from by simp [CPiece.text]]
    rw [lex_step_none _ _ _ (lexStep_lineComment b rest h1 h2 h3)]
    exact lex_step_none _ _ _ (lexStep_ws (Char.ofNat 10) rest (by decide))
  | block b =>
    obtain ⟨h1, h2⟩ := hp
    rw [show CPiece.text (.block b) ++ rest
        = '#' :: '#' :: '#' :: (b ++ '#' :: '#' :: '#' :: rest) from by
      simp [CPiece.text]]
    exact lex_step_none _ _ _ (lexStep_blockComment b rest h1 h2)

theorem lex_pieces (ps : List CPiece) (h : ∀ p ∈ ps, p.ok) :
    lex (piecesText ps) = .ok [] := by
  induction ps with
  | nil => exact lex_nil
  | cons p ps ih =>
    rw [show piecesText (p :: ps) = p.text ++ piecesText ps from rfl,
      lex_piece p (h p (by simp)) (piecesText ps)]
    exact ih (fun q hq => h q (by simp [hq]))

/-- Claim C1, counterexample: at top level, a WORD that is not followed by
OPEN_CURLY is *silently discarded* — here the WORD `a` is dropped and a
document containing only section `b` is returned, with no UnexpectedToken
error, contradicting the claim. -/
theorem claimC1_counterexample :
    parse [.WORD ("a"), .WORD ("b"), .OPEN_CURLY, .CLOSE_CURLY]
      = .ok ⟨[.mk ("b") [] []]⟩
    ∧ (Except.ok (JACL.mk [.mk ("b") [] []]) : Except JaclError JACL)
        ≠ .error .unexpectedToken :=
  ⟨by simp [parse, parseAux, parseSecAux, parseSection, JACL.add, Except.map],
   fun h => Except.noConfusion h⟩

/-- Claim C1 (amended): at top level a non-WORD token fails with
UnexpectedToken; a WORD *not* followed by OPEN_CURLY is silently discarded
and parsing continues with the remaining tokens; a WORD that is the final
token fails with IndexError (from `tokens[0]`), not UnexpectedToken. -/
theorem claimC1_amended :
    (∀ (t : Token) (ts : List Token), t.isWord = false →
        parse (t :: ts) = .error .unexpectedToken)
    ∧ (∀ (n : String) (nt : Token) (ts : List Token), nt ≠ .OPEN_CURLY →
        parse (.WORD n :: nt :: ts) = parse (nt :: ts))
    ∧ (∀ (n : String), parse [.WORD n] = .error .indexError) :=
  ⟨fun t ts hw => parseAux_nonword t ts ⟨[]⟩ hw,
   fun n nt ts ho => parseAux_word_skip n nt ts ⟨[]⟩ ho,
   fun n => parseAux_word_end n ⟨[]⟩⟩

theorem claimC1_witness :
    parse [.OPEN_CURLY] = .error .unexpectedToken
    ∧ parse [.WORD ("a"), .INTEGER 7] = parse [.INTEGER 7]
    ∧ parse [.WORD ("a")] = .error .indexError :=
  ⟨claimC1_amended.1 .OPEN_CURLY [] rfl,
   claimC1_amended.2.1 ("a") (.INTEGER 7) [] (by decide),
   claimC1_amended.2.2 ("a")⟩

/-- Claim C2, counterexample: a leading INTEGER token inside a section body
is silently skipped — parsing the body `5 }` succeeds with an empty
section, with no UnexpectedToken error, contradicting the claim. -/
theorem claimC2_counterexample :
    parseSection [.INTEGER 5, .CLOSE_CURLY] (.mk ("s") [] [])
      = .ok (.mk ("s") [] [], [])
    ∧ (Except.ok ((Section.mk ("s") [] []), ([] : List Token)) :
        Except JaclError (Section × List Token)) ≠ .error .unexpectedToken :=
  ⟨by simp [parseSection, parseSecAux, Except.map],
   fun h => Except.noConfusion h⟩

/-- Claim C2 (amended): inside a section body, a leading token that is
neither a WORD nor a CLOSE_CURLY is silently skipped and section parsing
continues with the remaining tokens (the loop has no else branch for it). -/
theorem claimC2_amended (t : Token) (ts : List Token) (sec : Section)
    (hw : t.isWord = false) (hc : t ≠ .CLOSE_CURLY) :
    parseSection (t :: ts) sec = parseSection ts sec :=
  parseSection_skip t ts sec hw hc

theorem claimC2_witness :
    parseSection [.INTEGER 5] (.mk ("s") [] [])
      = parseSection [] (.mk ("s") [] []) :=
  claimC2_amended (.INTEGER 5) [] (.mk ("s") [] []) rfl (by decide)

/-- Claim C8, counterexample: a variable name that is the *last* token of
the input (no following token at all) fails with IndexError, not with
UnexpectedToken as the claim states. -/
theorem claimC8_counterexample :
    parseSection [.WORD ("var1")] (.mk ("section1") [] []) = .error .indexError
    ∧ JaclError.indexError ≠ .unexpectedToken :=
  ⟨by simp [parseSection, parseSecAux, Except.map], by decide⟩

/-- Claim C8 (amended): inside a section body, a WORD followed by a NONE
token fails with UnexpectedToken (`key none` is a syntax error), and a WORD
followed directly by CLOSE_CURLY (a name with no value before the closing
brace) fails with UnexpectedToken; but a WORD followed by *no token at all*
fails with IndexError instead. -/
theorem claimC8_amended :
    (∀ (n : String) (ts : List Token) (sec : Section),
      parseSection (.WORD n :: .NONE :: ts) sec = .error .unexpectedToken)
    ∧ (∀ (n : String) (ts : List Token) (sec : Section),
      parseSection (.WORD n :: .CLOSE_CURLY :: ts) sec = .error .unexpectedToken)
    ∧ (∀ (n : String) (sec : Section),
      parseSection [.WORD n] sec = .error .indexError) :=
  ⟨fun n ts sec => parseSection_word_unexpected n .NONE ts sec (by decide) rfl,
   fun n ts sec => parseSection_word_unexpected n .CLOSE_CURLY ts sec (by decide) rfl,
   fun n sec => parseSection_word_end n sec⟩

/-- Claim C9, counterexample: an input that opens section `a` and runs out
of tokens right after the variable name `b` does *not* succeed — it fails
with IndexError — so it is not true that every truncated section parses
successfully. -/
theorem claimC9_counterexample :
    parse [.WORD ("a"), .OPEN_CURLY, .WORD ("b")] = .error .indexError := by
  simp [parse, parseAux, parseSecAux, parseSection, Except.map]

/-- Claim C9 (amended): when the unterminated section body is a run of
*complete* variable entries, parsing does succeed: exhausting the token
list ends the section loop as if the brace had been closed, and the section
is added to the document. -/
theorem claimC9_amended (n : String) (ps : List (String × Token))
    (hv : ∀ p ∈ ps, p.2.isValueType = true) :
    parse (.WORD n :: .OPEN_CURLY :: pairsToks ps)
      = .ok ⟨[sectionFold (.mk n [] []) ps]⟩ :=
  parse_unclosed n ps hv

theorem claimC9_witness :
    parse (.WORD ("a") :: .OPEN_CURLY :: pairsToks [(("x"), .INTEGER 1)])
      = .ok ⟨[sectionFold (.mk ("a") [] []) [(("x"), .INTEGER 1)]]⟩ :=
  claimC9_amended ("a") [(("x"), .INTEGER 1)] (by decide)

/-- Claim C10: every successful iteration of the lexer dispatch loop on a
nonempty view leaves a strictly shorter view (each iteration starts by
consuming one character with `triml`), so the loop terminates on every
finite input. -/
theorem claimC10_confirmed (cs : List Char) (hne : cs ≠ []) (t : Option Token)
    (rest : List Char) (h : lexStep cs = .ok (t, rest)) :
    rest.length < cs.length := by
  match cs, hne with
  | c :: cs2, _ => exact lexStep_length_lt c cs2 t rest h

theorem claimC10_witness : ([] : List Char).length < ['a'].length :=
  claimC10_confirmed ['a'] (by decide) (some (.WORD ("a"))) [] rfl

/-- Claim C5, counterexample: in a section defining `a`, then `b`, then `a`
again, the merged variable `a` does **not** stay at the position of its
first definition: `Section.add` pops it and re-appends it at the end, so
the parsed order is `[b, a]`, not the claimed `[a, b]`. -/
theorem claimC5_counterexample :
    parse [.WORD ("s"), .OPEN_CURLY, .WORD ("a"), .INTEGER 1, .WORD ("b"),
        .INTEGER 2, .WORD ("a"), .INTEGER 3, .CLOSE_CURLY]
      = .ok ⟨[.mk ("s") [⟨("b"), .int 2⟩, ⟨("a"), .list [.int 1, .int 3]⟩] []]⟩
    ∧ (["b", "a"] : List String) ≠ ["a", "b"] :=
  ⟨by simp [parse, parseAux, parseSecAux, parseSection, Section.addVar,
      popFirstVar, promote, Token.value, Token.isValueType, Section.name,
      Section.vars, Section.subsections, JACL.add, Except.map],
   by decide⟩

/-- Claim C5 (amended): insertion order is preserved for names that are
never duplicated (a fresh variable or subsection is appended at the end,
leaving the existing order intact), but merging a duplicate *moves* the
merged variable or subsection to the end of its list — the position of the
most recent definition, not the first. -/
theorem claimC5_amended :
    (∀ (nm : String) (vs : List Variable) (subs : List Section) (v : Variable),
      (∀ u ∈ vs, u.name ≠ v.name) →
      (Section.mk nm vs subs).addVar v = .mk nm (vs ++ [v]) subs)
    ∧ (∀ (nm : String) (pre post : List Variable) (subs : List Section)
        (w v : Variable),
      (∀ u ∈ pre, u.name ≠ v.name) → w.name = v.name →
      (Section.mk nm (pre ++ w :: post) subs).addVar v
        = .mk nm ((pre ++ post) ++ [⟨w.name, promote w.value v.value⟩]) subs)
    ∧ (∀ (nm : String) (vs : List Variable) (subs : List Section) (v : Section),
      (∀ u ∈ subs, u.name ≠ v.name) →
      (Section.mk nm vs subs).addSec v = .mk nm vs (subs ++ [v]))
    ∧ (∀ (nm : String) (vs : List Variable) (pre post : List Section)
        (w v : Section),
      (∀ u ∈ pre, u.name ≠ v.name) → w.name = v.name →
      (Section.mk nm vs (pre ++ w :: post)).addSec v
        = .mk nm vs ((pre ++ post)
            ++ [addSecList (List.foldl Section.addVar w v.vars) v.subsections])) :=
  ⟨Section.addVar_fresh, Section.addVar_merge, Section.addSec_fresh,
   Section.addSec_merge⟩

theorem claimC5_witness :
    (Section.mk ("s") [⟨("x"), .int 9⟩] []).addVar ⟨("a"), .int 1⟩
      = .mk ("s") ([⟨("x"), .int 9⟩] ++ [⟨("a"), .int 1⟩]) []
    ∧ (Section.mk ("s") ([] ++ ⟨("a"), .int 1⟩ :: [⟨("x"), .int 9⟩]) []).addVar
        ⟨("a"), .int 3⟩
      = .mk ("s") (([] ++ [⟨("x"), .int 9⟩])
          ++ [⟨("a"), promote (.int 1) (.int 3)⟩]) []
    ∧ (Section.mk ("s") [] [.mk ("t") [] []]).addSec (.mk ("u") [] [])
      = .mk ("s") [] ([.mk ("t") [] []] ++ [.mk ("u") [] []])
    ∧ (Section.mk ("s") [] ([] ++ .mk ("t") [] [] :: [])).addSec
        (.mk ("t") [⟨("y"), .int 2⟩] [])
      = .mk ("s") [] (([] ++ [])
          ++ [addSecList
                (List.foldl Section.addVar (.mk ("t") [] [])
                  (Section.vars (.mk ("t") [⟨("y"), .int 2⟩] [])))
                (Section.subsections (.mk ("t") [⟨("y"), .int 2⟩] []))]) :=
  ⟨claimC5_amended.1 ("s") [⟨("x"), .int 9⟩] [] ⟨("a"), .int 1⟩
     (by decide),
   claimC5_amended.2.1 ("s") [] [⟨("x"), .int 9⟩] [] ⟨("a"), .int 1⟩ ⟨("a"), .int 3⟩
     (by intro u hu; simp at hu) rfl,
   claimC5_amended.2.2.1 ("s") [] [.mk ("t") [] []] (.mk ("u") [] [])
     (by decide),
   claimC5_amended.2.2.2 ("s") [] [] [] (.mk ("t") [] [])
     (.mk ("t") [⟨("y"), .int 2⟩] [])
     (by intro u hu; simp at hu) rfl⟩

/-- Claim C6: adding a top-level section whose name already exists always
raises DuplicateTopLevelSection (never a merge), and an input consisting of
two complete top-level sections with the same name (arbitrary variable
bodies) fails to parse with DuplicateTopLevelSection. -/
theorem claimC6_confirmed :
    (∀ (j : JACL) (s : Section), (∃ t ∈ j.sections, t.name = s.name) →
      j.add s = .error .duplicateTopLevelSection)
    ∧ (∀ (n : String) (ps1 ps2 : List (String × Token)),
      (∀ p ∈ ps1, p.2.isValueType = true) → (∀ p ∈ ps2, p.2.isValueType = true) →
      parse (secToks n ps1 ++ secToks n ps2) = .error .duplicateTopLevelSection) :=
  ⟨JACL.add_dup, parse_dup_toplevel⟩

theorem claimC6_witness :
    (JACL.mk [.mk ("section1") [] []]).add (.mk ("section1") [⟨("var1"), .int 2⟩] [])
      = .error .duplicateTopLevelSection
    ∧ parse (secToks ("section1") [(("var1"), .INTEGER 1)]
        ++ secToks ("section1") [(("var1"), .INTEGER 2)])
      = .error .duplicateTopLevelSection :=
  ⟨claimC6_confirmed.1 (JACL.mk [.mk ("section1") [] []])
     (.mk ("section1") [⟨("var1"), .int 2⟩] []) ⟨.mk ("section1") [] [], by simp, rfl⟩,
   claimC6_confirmed.2 ("section1") [(("var1"), .INTEGER 1)] [(("var1"), .INTEGER 2)]
     (by decide) (by decide)⟩

/-- Claim C7: keyed lookup on a Section checks subsections before
variables: a name carried by some subsection resolves to that subsection
even when a variable shares the name; a name carried only by a variable
resolves to the variable value; a name carried by neither fails
(KeyError, modelled as `none`). -/
theorem claimC7_confirmed : ∀ (sec : Section) (key : String),
    ((∃ s ∈ sec.subsections, s.name = key) →
      ∃ s, s ∈ sec.subsections ∧ s.name = key ∧ sec.getItem key = some (.inl s))
    ∧ ((∀ s ∈ sec.subsections, s.name ≠ key) → (∃ v ∈ sec.vars, v.name = key) →
      ∃ v, v ∈ sec.vars ∧ v.name = key ∧ sec.getItem key = some (.inr v.value))
    ∧ ((∀ s ∈ sec.subsections, s.name ≠ key) → (∀ v ∈ sec.vars, v.name ≠ key) →
      sec.getItem key = none) := by
  intro sec key
  refine ⟨?_, ?_, ?_⟩
  · intro h
    obtain ⟨s, h1, h2, h3⟩ := lookupSec_exists sec.subsections key h
    exact ⟨s, h2, h3, by unfold Section.getItem; rw [h1]⟩
  · intro hn h
    obtain ⟨v, h1, h2, h3⟩ := lookupVar_exists sec.vars key h
    exact ⟨v, h2, h3, by
      unfold Section.getItem
      rw [lookupSec_none _ _ hn, h1]⟩
  · intro hn hv
    unfold Section.getItem
    rw [lookupSec_none _ _ hn, lookupVar_none _ _ hv]

theorem claimC7_witness :
    (∃ s, s ∈ Section.subsections
        (.mk ("s") [⟨("k"), .int 1⟩, ⟨("w"), .int 2⟩] [.mk ("k") [] []])
      ∧ Section.name s = ("k")
      ∧ Section.getItem
          (.mk ("s") [⟨("k"), .int 1⟩, ⟨("w"), .int 2⟩] [.mk ("k") [] []]) ("k")
          = some (.inl s))
    ∧ (∃ v, v ∈ Section.vars
        (.mk ("s") [⟨("k"), .int 1⟩, ⟨("w"), .int 2⟩] [.mk ("k") [] []])
      ∧ Variable.name v = ("w")
      ∧ Section.getItem
          (.mk ("s") [⟨("k"), .int 1⟩, ⟨("w"), .int 2⟩] [.mk ("k") [] []]) ("w")
          = some (.inr (Variable.value v)))
    ∧ Section.getItem
        (.mk ("s") [⟨("k"), .int 1⟩, ⟨("w"), .int 2⟩] [.mk ("k") [] []]) ("z")
        = none :=
  ⟨(claimC7_confirmed
      (.mk ("s") [⟨("k"), .int 1⟩, ⟨("w"), .int 2⟩] [.mk ("k") [] []]) ("k")).1
     ⟨.mk ("k") [] [], by simp [Section.subsections], rfl⟩,
   (claimC7_confirmed
      (.mk ("s") [⟨("k"), .int 1⟩, ⟨("w"), .int 2⟩] [.mk ("k") [] []]) ("w")).2.1
     (by decide) ⟨⟨("w"), .int 2⟩, by simp [Section.vars], rfl⟩,
   (claimC7_confirmed
      (.mk ("s") [⟨("k"), .int 1⟩, ⟨("w"), .int 2⟩] [.mk ("k") [] []]) ("z")).2.2
     (by decide) (by decide)⟩

/-- Claim C3, counterexample: the input `# x` — a line comment that reaches
end of input with no trailing newline — does *not* lex successfully: the
line-comment loop hits the end of the view and raises SyntaxError
("Expected newline"). -/
theorem claimC3_counterexample :
    lex ['#', ' ', 'x'] = .error .expectedNewline
    ∧ lexParse ['#', ' ', 'x'] = .error .expectedNewline := by
  have h : lex ['#', ' ', 'x'] = .error .expectedNewline := by
    simp [lex, lexStep, scanLine]
  exact ⟨h, by simp [lexParse, h, Except.bind, bind]⟩

/-- Claim C3 (amended): an input consisting only of whitespace characters,
*newline-terminated* line comments (with a nonempty body that contains no
newline and does not begin with `##`), and closed block comments (whose
body contains no `###` and does not end with `#`) lexes to the empty token
list and parses to an empty Root.  A line comment that reaches end of input
without a newline instead fails with SyntaxError, and a `#` with fewer than
two characters after it fails with OverflowError. -/
theorem claimC3_amended (ps : List CPiece) (h : ∀ p ∈ ps, p.ok) :
    lex (piecesText ps) = .ok []
    ∧ lexParse (piecesText ps) = .ok ⟨[]⟩ := by
  have hl := lex_pieces ps h
  have hp : parse ([] : List Token) = .ok ⟨[]⟩ := parseAux_nil ⟨[]⟩
  exact ⟨hl, by simp [lexParse, hl, hp, Except.bind, bind]⟩

theorem claimC3_witness :
    lex (piecesText [.ws ' ', .line [' ', 'h', 'i'], .block ['x'], .ws ' '])
      = .ok []
    ∧ lexParse (piecesText [.ws ' ', .line [' ', 'h', 'i'], .block ['x'], .ws ' '])
      = .ok ⟨[]⟩ :=
  claimC3_amended [.ws ' ', .line [' ', 'h', 'i'], .block ['x'], .ws ' ']
    (by decide)

/-- Claim C4, counterexample: in `section1 ... seven listname lines valued
1 through 7 ...`, the bare words `1`..`7` are coerced by the lexer to
INTEGER tokens, so the merged variable holds the ordered list of *integers*
1..7, not the claimed list of strings "1".."7". -/
theorem claimC4_counterexample :
    lexParse
  ['s', 'e', 'c', 't', 'i', 'o', 'n', '1', ' ', '\x7b', ' ', 'l', 'i', 's',
   't', 'n', 'a', 'm', 'e', ' ', '1', ' ', 'l', 'i', 's', 't', 'n', 'a',
   'm', 'e', ' ', '2', ' ', 'l', 'i', 's', 't', 'n', 'a', 'm', 'e', ' ',
   '3', ' ', 'l', 'i', 's', 't', 'n', 'a', 'm', 'e', ' ', '4', ' ', 'l',
   'i', 's', 't', 'n', 'a', 'm', 'e', ' ', '5', ' ', 'l', 'i', 's', 't',
   'n', 'a', 'm', 'e', ' ', '6', ' ', 'l', 'i', 's', 't', 'n', 'a', 'm',
   'e', ' ', '7', ' ', '\x7d']
      = .ok ⟨[.mk ("section1") [⟨("listname"),
          .list [.int 1, .int 2, .int 3, .int 4, .int 5, .int 6, .int 7]⟩] []]⟩
    ∧ (JVal.list [.int 1, .int 2, .int 3, .int 4, .int 5, .int 6, .int 7]
        ≠ .list [.str ("1"), .str ("2"), .str ("3"), .str ("4"), .str ("5"),
            .str ("6"), .str ("7")]) := by
  constructor
  · simp [lexParse, lex, lexStep, scanStr, scanLine, scanBlock, scanWord,
      classifyWord, pyInt, pyIntDigits, digitsCore, pyFloat, pyFloatNum,
      pyFloatStr, digitsRest, digitsRestCore, expPart, fracExp, isalnum,
      Char.toLower, Token.value, Token.isValueType, parse, parseAux,
      parseSecAux, parseSection, Section.addVar, popFirstVar, promote,
      Section.name, Section.vars, Section.subsections, JACL.add,
      Except.map, Except.bind, bind]
  · intro hx
    injection hx with h1
    injection h1 with h2 h3
    cases h2

/-- Claim C4 (amended): the seven `listname` lines valued `1` through `7`
parse to a single Variable `listname` holding the ordered list of
*integers* `[1, 2, 3, 4, 5, 6, 7]` (bare numeric words are coerced by the
lexer before the parser sees them). -/
theorem claimC4_amended :
    lexParse
  ['s', 'e', 'c', 't', 'i', 'o', 'n', '1', ' ', '\x7b', ' ', 'l', 'i', 's',
   't', 'n', 'a', 'm', 'e', ' ', '1', ' ', 'l', 'i', 's', 't', 'n', 'a',
   'm', 'e', ' ', '2', ' ', 'l', 'i', 's', 't', 'n', 'a', 'm', 'e', ' ',
   '3', ' ', 'l', 'i', 's', 't', 'n', 'a', 'm', 'e', ' ', '4', ' ', 'l',
   'i', 's', 't', 'n', 'a', 'm', 'e', ' ', '5', ' ', 'l', 'i', 's', 't',
   'n', 'a', 'm', 'e', ' ', '6', ' ', 'l', 'i', 's', 't', 'n', 'a', 'm',
   'e', ' ', '7', ' ', '\x7d']
      = .ok ⟨[.mk ("section1") [⟨("listname"),
          .list [.int 1, .int 2, .int 3, .int 4, .int 5, .int 6, .int 7]⟩] []]⟩ := by
  simp [lexParse, lex, lexStep, scanStr, scanLine, scanBlock, scanWord,
    classifyWord, pyInt, pyIntDigits, digitsCore, pyFloat, pyFloatNum,
    pyFloatStr, digitsRest, digitsRestCore, expPart, fracExp, isalnum,
    Char.toLower, Token.value, Token.isValueType, parse, parseAux,
    parseSecAux, parseSection, Section.addVar, popFirstVar, promote,
    Section.name, Section.vars, Section.subsections, JACL.add,
    Except.map, Except.bind, bind]

end Jacl
